import Mathlib

/-!
# Verification of the Nucleos'ID spectral matching specification

This file embeds, as Lean definitions, the parts of the Nucleos'ID
repository that the specification talks about:

* `nucleosid/arn_modification_database.py` — the reference-database
  parser (`verify_database_structure`, `_parse_database`, `__init__`) is
  translated directly from the Python source, including its iteration
  behaviour over a pandas `DataFrame` (iterating a `DataFrame` yields its
  column labels, not its rows).
* The matching/scoring engine (`mgf_data_analyzer`) is not present in the
  repository sources; its components (tolerance evaluator, match scorer,
  candidate generation, deduplicator, orchestrator) are modelled from the
  specification text and marked as such.

Numeric values (masses, intensities, tolerances, scores) are modelled as
rationals (`Rat`).
-/

set_option autoImplicit false

namespace Nucleosid

/-! ## Data model for the database parser (from the source) -/

/-- A pandas dtype, as far as the parser distinguishes them:
`np.dtype('O')` (object), `np.dtype('float64')`, and anything else
(represented here by `int64` as one concrete other dtype). -/
inductive Dtype where
  | object
  | float64
  | int64
  deriving DecidableEq, Repr

/-- One cell of a CSV / DataFrame column. -/
inductive Cell where
  | str (s : String)
  | num (q : Rat)
  deriving DecidableEq, Repr

/-- One column of a pandas DataFrame: a label, an inferred dtype and the
column's cells (one per data row). -/
structure Column where
  name : String
  dtype : Dtype
  cells : List Cell
  deriving DecidableEq, Repr

/-- A pandas DataFrame as the parser sees it: an ordered list of columns.
Iterating a DataFrame (`for item in data:`) yields the column labels in
this order. -/
structure DataFrame where
  cols : List Column
  deriving DecidableEq, Repr

/-- Python-level errors that the parser code can raise. -/
inductive PyErr where
  | valueError
  | indexError
  deriving DecidableEq, Repr

/-- One entry of the parsed database dictionary
(`{'ms_value': float, 'ms_ms_values': list}` in the source). -/
structure DbEntry where
  ms_value : Rat
  ms_ms_values : List String
  deriving DecidableEq, Repr

/-- `COLUMN_TYPES` from `ARNModificationDatabaseParser`: the expected
column labels with their expected dtypes. -/
def COLUMN_TYPES : List (String × Dtype) :=
  [("Short Name", Dtype.object), ("[M+H]+", Dtype.float64),
   ("Product ions", Dtype.object)]

/-- Lookup of a column label in `COLUMN_TYPES`
(`str(column) in self.COLUMN_TYPES.keys()` plus the dtype it maps to). -/
def lookupColumnType (s : String) : Option Dtype :=
  (COLUMN_TYPES.find? (fun p => p.1 = s)).map (fun p => p.2)

/-- `ARNModificationDatabaseParser.verify_database_structure`, translated
from the source: reject unless the number of columns equals
`len(COLUMN_TYPES)` and every column label is a known key whose dtype
matches the expected one. -/
def verify_database_structure (data : DataFrame) : Bool :=
  if data.cols.length ≠ COLUMN_TYPES.length then false
  else data.cols.all (fun c =>
    match lookupColumnType c.name with
    | none => false
    | some t => c.dtype = t)

/-- Python's `float(s)` on a single-character string: succeeds exactly on
a decimal digit (yielding its value); any other single character raises
`ValueError`. -/
def pyFloatChar (c : Char) : Option Rat :=
  if c.isDigit then some ((c.toNat - 48 : Nat) : Rat) else none

/-- Python's `s.split(';')` on a string. -/
def pySplitSemicolon (s : String) : List String :=
  s.splitOn ";"

/-- Insertion into the `arn_modifications` dict: overwrite the value when
the key is present, otherwise append the new binding. -/
def dictInsert (m : List (String × DbEntry)) (k : String) (v : DbEntry) :
    List (String × DbEntry) :=
  if m.any (fun p => p.1 = k) then
    m.map (fun p => if p.1 = k then (k, v) else p)
  else m ++ [(k, v)]

/-- The loop body sequence of `ARNModificationDatabaseParser._parse_database`,
translated from the source.  The Python loop `for item in data:` iterates
over the DataFrame's COLUMN LABELS (strings), so `item[0]`, `item[1]` and
`item[2]` index characters of a label (raising `IndexError` when the label
is too short), `item[2].split(';')` splits the third character, and
`float(item[1])` raises `ValueError` unless that character is a digit. -/
def parse_database_aux :
    List Column → List (String × DbEntry) → Except PyErr (List (String × DbEntry))
  | [], acc => Except.ok acc
  | col :: rest, acc =>
    match col.name.data.get? 0, col.name.data.get? 1, col.name.data.get? 2 with
    | some c0, some c1, some c2 =>
      match pyFloatChar c1 with
      | some v =>
          parse_database_aux rest
            (dictInsert acc (String.mk [c0])
              ⟨v, pySplitSemicolon (String.mk [c2])⟩)
      | none => Except.error PyErr.valueError
    | _, _, _ => Except.error PyErr.indexError

/-- `ARNModificationDatabaseParser._parse_database` on a DataFrame. -/
def parse_database (data : DataFrame) : Except PyErr (List (String × DbEntry)) :=
  parse_database_aux data.cols []

/-- `ARNModificationDatabaseParser.__init__` after `pd.read_csv`: start
from an empty `arn_modifications` dict, and only when
`verify_database_structure` accepts the DataFrame run `_parse_database`.
The result is the final `arn_modifications` mapping (or the Python error
the parse raised). -/
def parserInit (data : DataFrame) : Except PyErr (List (String × DbEntry)) :=
  if verify_database_structure data then parse_database data
  else Except.ok []

/-! ## Engine data model (modelled from the spec, §3) -/

/-- Modelled from the spec: the interpretation of a tolerance magnitude,
`enum {Absolute, PPM}` (§3). -/
inductive ToleranceKind where
  | absolute
  | ppm
  deriving DecidableEq, Repr

/-- Modelled from the spec: one fragment peak, a (mass, intensity) pair (§3). -/
structure Peak where
  mass : Rat
  intensity : Rat
  deriving DecidableEq, Repr

/-- Modelled from the spec: one MS/MS acquisition (§3 `Spectrum`). -/
structure Spectrum where
  title : String
  retention_time_seconds : Rat
  precursor_mass : Rat
  charge : Int
  peaks : List Peak
  deriving DecidableEq, Repr

/-- Modelled from the spec: one reference modification (§3
`ModificationEntry`). -/
structure ModificationEntry where
  name : String
  reference_mass : Rat
  reference_product_ions : List Rat
  deriving DecidableEq, Repr

/-- Modelled from the spec: the engine configuration (§3
`AnalysisParameters`). -/
structure AnalysisParameters where
  ms_tolerance : Rat
  ms_tolerance_type : ToleranceKind
  ms_ms_tolerance : Rat
  ms_ms_tolerance_type : ToleranceKind
  ms_ms_score_threshold : Rat
  exclusion_time_seconds : Rat
  deriving DecidableEq, Repr

/-- Modelled from the spec: the engine's error taxonomy (§7). -/
inductive EngineError where
  | InvalidParameters
  | InvalidTolerance
  | EmptyDatabase
  deriving DecidableEq, Repr

/-- Modelled from the spec: an accepted candidate / identification record
(§3 `IdentificationRecord`, §4.3 candidate). -/
structure Candidate where
  modification : String
  title : String
  retention_time_seconds : Rat
  precursor_mass : Rat
  score_percent : Rat
  matched_count : Nat
  total_reference_ion_count : Nat
  deriving DecidableEq, Repr

/-! ## Tolerance evaluator (modelled from the spec, §4.1) -/

/-- Modelled from the spec: `within_tolerance(observed, reference,
magnitude, kind)` (§4.1).  Absolute: accept iff
`|observed - reference| <= magnitude`.  PPM: accept iff
`|observed - reference| <= reference * magnitude / 1_000_000`; a PPM test
against `reference == 0` is invalid input and fails with
`InvalidTolerance`. -/
def within_tolerance (observed reference magnitude : Rat)
    (kind : ToleranceKind) : Except EngineError Bool :=
  match kind with
  | ToleranceKind.absolute =>
      Except.ok (decide (|observed - reference| ≤ magnitude))
  | ToleranceKind.ppm =>
      if reference = 0 then Except.error EngineError.InvalidTolerance
      else Except.ok (decide (|observed - reference| ≤ reference * magnitude / 1000000))

/-! ## Match scorer (modelled from the spec, §4.2) -/

/-- The surviving peaks of a spectrum, paired with their position in the
spectrum's peak list: peaks whose intensity is below the intensity
threshold are discarded (§4.2 step 1). -/
def survivingPeaks (peaks : List Peak) (intensity_threshold : Rat) :
    List (Nat × Peak) :=
  peaks.enum.filter (fun ip => intensity_threshold ≤ ip.2.intensity)

/-- Modelled from the spec: find the first peak, in spectrum order, that
is not yet assigned to an earlier reference ion and lies within tolerance
of `ion` (§4.2 step 2).  Returns the index of that peak, `none` when no
unassigned peak qualifies, or the tolerance evaluator's error. -/
def findFirstUnused (tol : Rat) (kind : ToleranceKind) (ion : Rat)
    (used : List Nat) :
    List (Nat × Peak) → Except EngineError (Option Nat)
  | [] => Except.ok none
  | ip :: rest =>
    if ip.1 ∈ used then findFirstUnused tol kind ion used rest
    else
      match within_tolerance ip.2.mass ion tol kind with
      | Except.error e => Except.error e
      | Except.ok true => Except.ok (some ip.1)
      | Except.ok false => findFirstUnused tol kind ion used rest

/-- Modelled from the spec: the greedy one-to-one assignment of surviving
peaks to reference ions, evaluated in reference-ion order (§4.2 step 2).
For each reference ion in turn it yields the index of the peak assigned
to it (or `none`); a peak once assigned is never reused. -/
def greedyAssign (surv : List (Nat × Peak)) (tol : Rat) (kind : ToleranceKind) :
    List Rat → List Nat → Except EngineError (List (Option Nat))
  | [], _ => Except.ok []
  | ion :: rest, used =>
    match findFirstUnused tol kind ion used surv with
    | Except.error e => Except.error e
    | Except.ok (some i) =>
        match greedyAssign surv tol kind rest (used ++ [i]) with
        | Except.error e => Except.error e
        | Except.ok tl => Except.ok (some i :: tl)
    | Except.ok none =>
        match greedyAssign surv tol kind rest used with
        | Except.error e => Except.error e
        | Except.ok tl => Except.ok (none :: tl)

/-- The peak/ion assignment computed by the scorer on a spectrum's peak
list (§4.2 steps 1–2). -/
def assignmentOf (peaks : List Peak) (ions : List Rat) (tol : Rat)
    (kind : ToleranceKind) (intensity_threshold : Rat) :
    Except EngineError (List (Option Nat)) :=
  greedyAssign (survivingPeaks peaks intensity_threshold) tol kind ions []

/-- Modelled from the spec: `score(spectrum_peaks, reference_ions,
ms_ms_tolerance, ms_ms_tolerance_type, intensity_threshold)` (§4.2).
`matched_count` is the number of reference ions satisfied;
`score_percent` is `100 * matched_count / total_reference_ion_count`,
defined as 0 when the reference-ion list is empty. -/
def score (peaks : List Peak) (ions : List Rat) (tol : Rat)
    (kind : ToleranceKind) (intensity_threshold : Rat) :
    Except EngineError (Rat × Nat) :=
  match assignmentOf peaks ions tol kind intensity_threshold with
  | Except.error e => Except.error e
  | Except.ok assignment =>
    let matched := (assignment.filterMap id).length
    let total := ions.length
    Except.ok
      (if total = 0 then 0 else 100 * (matched : Rat) / (total : Rat), matched)

/-! ## Candidate generation (modelled from the spec, §4.3) -/

/-- The candidate record built from a spectrum and a modification entry
whose score passed the threshold. -/
def mkCandidate (s : Spectrum) (e : ModificationEntry) (pct : Rat) (m : Nat) :
    Candidate :=
  ⟨e.name, s.title, s.retention_time_seconds, s.precursor_mass, pct, m,
   e.reference_product_ions.length⟩

/-- Modelled from the spec: evaluation of one modification entry against
one spectrum (§4.3).  Test precursor-mass compatibility with
`ms_tolerance`; for a mass-compatible entry compute the product-ion score
(§4.2, with intensity threshold 0, the spec's default); emit a candidate
only if `score_percent >= ms_ms_score_threshold`, otherwise drop it and
count it as filtered-out.  A mass-incompatible entry is likewise counted
as filtered-out (§4.5). -/
def processEntry (s : Spectrum) (e : ModificationEntry)
    (par : AnalysisParameters) : Except EngineError (Option Candidate × Nat) :=
  match within_tolerance s.precursor_mass e.reference_mass
      par.ms_tolerance par.ms_tolerance_type with
  | Except.error err => Except.error err
  | Except.ok false => Except.ok (none, 1)
  | Except.ok true =>
    match score s.peaks e.reference_product_ions
        par.ms_ms_tolerance par.ms_ms_tolerance_type 0 with
    | Except.error err => Except.error err
    | Except.ok (pct, m) =>
      if par.ms_ms_score_threshold ≤ pct then
        Except.ok (some (mkCandidate s e pct m), 0)
      else Except.ok (none, 1)

/-- Modelled from the spec: candidate generation for one spectrum over
the whole database (§4.3), with the per-entry recovery of §7: an entry on
which evaluation fails with `InvalidTolerance` is skipped and the run
continues with the remaining entries.  Returns the accepted candidates in
database order together with the number of filtered-out candidates. -/
def generateCandidates (s : Spectrum) (par : AnalysisParameters) :
    List ModificationEntry → List Candidate × Nat
  | [] => ([], 0)
  | e :: rest =>
    let r := generateCandidates s par rest
    match processEntry s e par with
    | Except.error _ => r
    | Except.ok (some c, k) => (c :: r.1, r.2 + k)
    | Except.ok (none, k) => (r.1, r.2 + k)

/-! ## Candidate filter & deduplicator (modelled from the spec, §4.4) -/

/-- The better of the retained candidate and a newcomer within one
exclusion run: the newcomer replaces the incumbent only on a strictly
higher score, so on equal scores the earlier candidate is retained. -/
def pickBetter (b c : Candidate) : Candidate :=
  if b.score_percent < c.score_percent then c else b

/-- Modelled from the spec: the left-to-right sweep over one
modification's time-ordered candidates (§4.4, §9).  `best` is the
retained candidate of the current run and `last` the retention time of
the run's most recent member; a newcomer within `excl` of its immediate
predecessor extends the run, otherwise the run's best is emitted and a
new run starts. -/
def sweepName (excl : Rat) : Candidate → Rat → List Candidate → List Candidate
  | best, _, [] => [best]
  | best, last, c :: rest =>
    if c.retention_time_seconds - last ≤ excl then
      sweepName excl (pickBetter best c) c.retention_time_seconds rest
    else
      best :: sweepName excl c c.retention_time_seconds rest

/-- Modelled from the spec: deduplication of one modification's
time-ordered candidate list (§4.4). -/
def dedupName (excl : Rat) : List Candidate → List Candidate
  | [] => []
  | c :: rest => sweepName excl c c.retention_time_seconds rest

/-- Modelled from the spec: the deduplication pass over the full accepted
candidate list, partitioned by modification name (§4.4); names are
processed in order of first appearance. -/
def dedup (excl : Rat) (cs : List Candidate) : List Candidate :=
  ((cs.map (fun c => c.modification)).dedup.map
    (fun n => dedupName excl (cs.filter (fun c => c.modification = n)))).flatten

/-! ## Analysis engine (modelled from the spec, §4.5) -/

/-- Modelled from the spec: the parameter-domain check of §4.5/§7 — any
negative tolerance, threshold or exclusion time is outside its legal
domain. -/
def paramsInvalid (par : AnalysisParameters) : Bool :=
  decide (par.ms_tolerance < 0) || decide (par.ms_ms_tolerance < 0) ||
  decide (par.ms_ms_score_threshold < 0) || decide (par.exclusion_time_seconds < 0)

/-- Modelled from the spec: `find_modifications(spectra, database,
parameters)` (§4.5).  Parameters are validated before any matching work
begins (`InvalidParameters`), an empty database is refused
(`EmptyDatabase`), then candidates are generated per spectrum (§4.3),
concatenated in spectrum order, deduplicated (§4.4) and returned together
with the total filtered-out count. -/
def find_modifications (spectra : List Spectrum)
    (db : List ModificationEntry) (par : AnalysisParameters) :
    Except EngineError (List Candidate × Nat) :=
  if paramsInvalid par then Except.error EngineError.InvalidParameters
  else if db.isEmpty then Except.error EngineError.EmptyDatabase
  else
    let perSpectrum := spectra.map (fun s => generateCandidates s par db)
    let allCandidates := (perSpectrum.map (fun r => r.1)).flatten
    let filtered := (perSpectrum.map (fun r => r.2)).sum
    Except.ok (dedup par.exclusion_time_seconds allCandidates, filtered)

/-! ## Derived predicates used to state the claims -/

/-- `jq` is a surviving peak (with its spectrum position) lying within
tolerance of the reference ion `ion`. -/
def matchesIon (tol : Rat) (kind : ToleranceKind) (jq : Nat × Peak) (ion : Rat) : Prop :=
  within_tolerance jq.2.mass ion tol kind = Except.ok true

/-- `i` is the position of the FIRST peak of `surv` (in spectrum order)
that is not yet used and lies within tolerance of `ion`: every earlier
unused surviving peak fails the tolerance test. -/
def firstQualifying (surv : List (Nat × Peak)) (used : List Nat) (tol : Rat)
    (kind : ToleranceKind) (ion : Rat) (i : Nat) : Prop :=
  ∃ l₁ p l₂, surv = l₁ ++ (i, p) :: l₂ ∧ i ∉ used ∧
    within_tolerance p.mass ion tol kind = Except.ok true ∧
    ∀ jq ∈ l₁, jq.1 ∉ used → within_tolerance jq.2.mass ion tol kind = Except.ok false

/-- The declarative chain partition of §4.4: starting from `c`, each
further candidate within `excl` seconds of its immediate predecessor
extends the current run, and a larger gap starts a new run. -/
def splitChainsFrom (excl : Rat) (c : Candidate) :
    List Candidate → List (List Candidate)
  | [] => [[c]]
  | d :: rest =>
    if d.retention_time_seconds - c.retention_time_seconds ≤ excl then
      match splitChainsFrom excl d rest with
      | [] => [[c]]
      | ch :: chs => (c :: ch) :: chs
    else
      [c] :: splitChainsFrom excl d rest

/-- The runs (maximal chains at gaps ≤ `excl` between consecutive
same-name candidates) of one modification's time-ordered candidate
list. -/
def splitChains (excl : Rat) : List Candidate → List (List Candidate)
  | [] => []
  | c :: rest => splitChainsFrom excl c rest

/-- The retained representative of one run: the first candidate attaining
the run's maximal score (the fold keeps the incumbent on ties). -/
def bestOfChain : List Candidate → List Candidate
  | [] => []
  | c :: rest => [rest.foldl pickBetter c]

/-! ## Concrete inputs used by witnesses and counterexamples -/

/-- A candidate for modification "X" at 10 s with score 60. -/
def c1 : Candidate := ⟨"X", "S1", 10, 300, 60, 3, 5⟩

/-- A candidate for modification "X" at 40 s with score 80. -/
def c2 : Candidate := ⟨"X", "S2", 40, 300, 80, 4, 5⟩

/-- The time-ordered accepted-candidate list of the spec's §8 dedup
scenario. -/
def cs7 : List Candidate := [c1, c2]

/-- A well-formed three-column database DataFrame with one data row. -/
def dfGood : DataFrame :=
  ⟨[⟨"Short Name", Dtype.object, [Cell.str "m1A"]⟩,
    ⟨"[M+H]+", Dtype.float64, [Cell.num 282]⟩,
    ⟨"Product ions", Dtype.object, [Cell.str "150.1;166.1"]⟩]⟩

/-- A malformed DataFrame: only two columns. -/
def dfBad : DataFrame :=
  ⟨[⟨"Short Name", Dtype.object, []⟩, ⟨"[M+H]+", Dtype.float64, []⟩]⟩

/-- One peak of mass 100 and intensity 1. -/
def cexPeaks : List Peak := [⟨100, 1⟩]

/-- Two identical reference ions competing for the single peak of
`cexPeaks`. -/
def cexIons : List Rat := [100, 100]

/-- Two peaks, the first below an intensity threshold of 1. -/
def wPeaks : List Peak := [⟨50, 0⟩, ⟨100, 5⟩]

/-- A single reference ion matching the surviving peak of `wPeaks`. -/
def wIons : List Rat := [100]

/-- Two well-separated peaks of equal intensity. -/
def wPeaks2 : List Peak := [⟨100, 5⟩, ⟨160, 5⟩]

/-- The two reference ions matching the peaks of `wPeaks2` one-to-one. -/
def wIons2 : List Rat := [100, 160]

/-- A spectrum with two fragment peaks at 150 and 160. -/
def s0 : Spectrum := ⟨"S1", 5, 300, 1, [⟨150, 10⟩, ⟨160, 10⟩]⟩

/-- A modification entry fully matched by `s0` (score 100). -/
def e0 : ModificationEntry := ⟨"ModA", 300, [150, 160]⟩

/-- A modification entry half matched by `s0` (score 50). -/
def e1 : ModificationEntry := ⟨"ModB", 300, [150, 999]⟩

/-- A malformed entry with a zero reference mass. -/
def eBad : ModificationEntry := ⟨"Bad", 0, [150]⟩

/-- Absolute tolerances of 1, score threshold 100, exclusion 60 s. -/
def p0 : AnalysisParameters :=
  ⟨1, ToleranceKind.absolute, 1, ToleranceKind.absolute, 100, 60⟩

/-- A PPM precursor tolerance, for exercising `InvalidTolerance`. -/
def pPpm : AnalysisParameters :=
  ⟨1, ToleranceKind.ppm, 1, ToleranceKind.absolute, 0, 60⟩

/-- Parameters with a negative ms_tolerance. -/
def pBad : AnalysisParameters :=
  ⟨-1, ToleranceKind.absolute, 1, ToleranceKind.absolute, 0, 60⟩

/-! ## Lemmas about the database parser -/

theorem lookupColumnType_of_mem {s : String} {t : Dtype}
    (h : lookupColumnType s = some t) :
    s = "Short Name" ∨ s = "[M+H]+" ∨ s = "Product ions" := by
  by_cases h1 : "Short Name" = s
  · exact Or.inl h1.symm
  · by_cases h2 : "[M+H]+" = s
    · exact Or.inr (Or.inl h2.symm)
    · by_cases h3 : "Product ions" = s
      · exact Or.inr (Or.inr h3.symm)
      · simp [lookupColumnType, COLUMN_TYPES, List.find?, h1, h2, h3] at h

/-- Claim C1: the spec says parsing a verified three-column database file
builds the modification mapping row by row, one entry per data row.  The
code iterates the pandas DataFrame itself (`for item in data:`), which
yields the COLUMN LABELS, so on every DataFrame accepted by
`verify_database_structure` it calls `float` on the second character of a
column label (`'h'`, `'M'` or `'r'`) and raises `ValueError`; no mapping
entry is ever built from a data row. -/
theorem claim_C1_verified_parse_raises (df : DataFrame)
    (h : verify_database_structure df = true) :
    parse_database df = Except.error PyErr.valueError := by
  unfold verify_database_structure at h
  by_cases hlen : df.cols.length ≠ COLUMN_TYPES.length
  · rw [if_pos hlen] at h; cases h
  · rw [if_neg hlen] at h
    push_neg at hlen
    obtain ⟨cols⟩ := df
    cases cols with
    | nil => simp [COLUMN_TYPES] at hlen
    | cons c rest =>
      rw [List.all_cons, Bool.and_eq_true] at h
      obtain ⟨hc, -⟩ := h
      cases hl : lookupColumnType c.name with
      | none => rw [hl] at hc; cases hc
      | some t =>
        obtain ⟨nm, dt, cl⟩ := c
        have hname : nm = "Short Name" ∨ nm = "[M+H]+" ∨ nm = "Product ions" :=
          lookupColumnType_of_mem hl
        show parse_database_aux (⟨nm, dt, cl⟩ :: rest) [] =
          Except.error PyErr.valueError
        rcases hname with hn | hn | hn <;> subst hn <;> rfl

/-- Witness for C1: the well-formed one-row database file passes
verification, yet parsing it raises `ValueError` instead of producing its
single row's entry. -/
theorem claim_C1_witness :
    verify_database_structure dfGood = true ∧
    parse_database dfGood = Except.error PyErr.valueError := by
  have hv : verify_database_structure dfGood = true := by rfl
  exact ⟨hv, claim_C1_verified_parse_raises dfGood hv⟩

/-- Claim C2: on any DataFrame whose column set is malformed (wrong
number of columns, unknown column name, or wrong column dtype),
`verify_database_structure` returns `False`, so `_parse_database` is
never run and the parser's mapping stays empty — the engine never
receives a partially-typed database. -/
theorem claim_C2_malformed_rejected (df : DataFrame)
    (h : df.cols.length ≠ 3 ∨
         (∃ c ∈ df.cols, lookupColumnType c.name = none) ∨
         (∃ c ∈ df.cols, ∃ t, lookupColumnType c.name = some t ∧ c.dtype ≠ t)) :
    verify_database_structure df = false ∧ parserInit df = Except.ok [] := by
  have hv : verify_database_structure df = false := by
    unfold verify_database_structure
    by_cases hlen : df.cols.length ≠ COLUMN_TYPES.length
    · rw [if_pos hlen]
    · rw [if_neg hlen]
      push_neg at hlen
      rcases h with h | ⟨c, hc, hl⟩ | ⟨c, hc, t, hl, hd⟩
      · exact absurd (by simpa [COLUMN_TYPES] using hlen) h
      · apply List.all_eq_false.mpr
        exact ⟨c, hc, by rw [hl]; simp⟩
      · apply List.all_eq_false.mpr
        refine ⟨c, hc, ?_⟩
        rw [hl]
        simp [hd]
  refine ⟨hv, ?_⟩
  simp [parserInit, hv]

/-- Witness for C2: the two-column file is rejected and the mapping stays
empty. -/
theorem claim_C2_witness :
    verify_database_structure dfBad = false ∧ parserInit dfBad = Except.ok [] :=
  claim_C2_malformed_rejected dfBad (Or.inl (by decide))

/-- Claim C10 (amendment-free): `verify_database_structure` on a
DataFrame with three pairwise-distinct column names returns `True` iff
the set of column names is exactly {'Short Name', '[M+H]+',
'Product ions'} and each column's dtype is the expected dtype for its
name; the result is invariant under column reordering; and any DataFrame
with a column count other than three is rejected. -/
theorem claim_C10_verify_characterization :
    (∀ df : DataFrame, df.cols.length = 3 → (df.cols.map Column.name).Nodup →
      (verify_database_structure df = true ↔
        ((∀ s, s ∈ df.cols.map Column.name ↔
            s ∈ ["Short Name", "[M+H]+", "Product ions"]) ∧
         ∀ c ∈ df.cols, lookupColumnType c.name = some c.dtype))) ∧
    (∀ df₁ df₂ : DataFrame, df₁.cols.Perm df₂.cols →
      verify_database_structure df₁ = verify_database_structure df₂) ∧
    (∀ df : DataFrame, df.cols.length ≠ 3 → verify_database_structure df = false) := by
  have hkeylen : COLUMN_TYPES.length = 3 := rfl
  refine ⟨?_, ?_, ?_⟩
  · intro df hlen hnd
    have hcond : ¬ df.cols.length ≠ COLUMN_TYPES.length := by
      rw [hlen, hkeylen]; exact fun hh => hh rfl
    constructor
    · intro hv
      unfold verify_database_structure at hv
      rw [if_neg hcond] at hv
      have hall := List.all_eq_true.mp hv
      have hdt : ∀ c ∈ df.cols, lookupColumnType c.name = some c.dtype := by
        intro c hc
        have hfc := hall c hc
        cases hl : lookupColumnType c.name with
        | none => rw [hl] at hfc; cases hfc
        | some t =>
            rw [hl] at hfc
            simp only [decide_eq_true_eq] at hfc
            rw [hfc]
      refine ⟨?_, hdt⟩
      have hsub : df.cols.map Column.name ⊆
          ["Short Name", "[M+H]+", "Product ions"] := by
        intro s hs
        obtain ⟨c, hc, rfl⟩ := List.mem_map.mp hs
        rcases lookupColumnType_of_mem (hdt c hc) with hn | hn | hn <;>
          simp [hn]
      have hperm : (df.cols.map Column.name).Perm
          ["Short Name", "[M+H]+", "Product ions"] := by
        apply (List.subperm_of_subset hnd hsub).perm_of_length_le
        simp [hlen]
      exact fun s => hperm.mem_iff
    · rintro ⟨-, hdt⟩
      unfold verify_database_structure
      rw [if_neg hcond]
      apply List.all_eq_true.mpr
      intro c hc
      rw [hdt c hc]
      simp
  · intro df₁ df₂ hp
    unfold verify_database_structure
    rw [hp.length_eq]
    by_cases hlen : df₂.cols.length ≠ COLUMN_TYPES.length
    · rw [if_pos hlen, if_pos hlen]
    · rw [if_neg hlen, if_neg hlen]
      apply Bool.eq_iff_iff.mpr
      rw [List.all_eq_true, List.all_eq_true]
      exact ⟨fun hh c hc => hh c (hp.mem_iff.mpr hc),
             fun hh c hc => hh c (hp.mem_iff.mp hc)⟩
  · intro df hlen
    unfold verify_database_structure
    rw [if_pos]
    rw [hkeylen]
    exact hlen

/-- Witness for C10: the characterization evaluated on the well-formed
three-column DataFrame and on the two-column one. -/
theorem claim_C10_witness :
    verify_database_structure dfGood = true ∧
    verify_database_structure dfBad = false := by
  constructor
  · apply (claim_C10_verify_characterization.1 dfGood rfl (by decide)).mpr
    constructor
    · intro s; exact Iff.rfl
    · intro c hc
      fin_cases hc <;> rfl
  · exact claim_C10_verify_characterization.2.2 dfBad (by decide)

/-! ## Claims about the tolerance evaluator -/

/-- Counterexample for C3 as stated: with kind PPM and
`reference = 0`, `within_tolerance` does not return true even though
`|observed - reference| <= reference * magnitude / 1_000_000` holds — it
fails with `InvalidTolerance` instead (spec §4.1 edge case). -/
theorem claim_C3_counterexample :
    ¬ (within_tolerance 0 0 1 ToleranceKind.ppm = Except.ok true ↔
       |(0 : Rat) - 0| ≤ 0 * 1 / 1000000) := by
  intro h
  have := h.mpr (by norm_num)
  simp [within_tolerance] at this

/-- Claim C3 as amended: Absolute accepts iff
`|observed - reference| ≤ magnitude`; PPM with a nonzero reference
accepts iff `|observed - reference| ≤ reference * magnitude / 1_000_000`
(for reference = 0 the PPM evaluation fails with `InvalidTolerance`); in
both kinds the boundary is inclusive. -/
theorem claim_C3_within_tolerance (observed reference magnitude : Rat) :
    (within_tolerance observed reference magnitude ToleranceKind.absolute =
        Except.ok true ↔ |observed - reference| ≤ magnitude) ∧
    (reference ≠ 0 →
      (within_tolerance observed reference magnitude ToleranceKind.ppm =
          Except.ok true ↔
        |observed - reference| ≤ reference * magnitude / 1000000)) := by
  constructor
  · simp [within_tolerance]
  · intro hr
    simp [within_tolerance, hr]

/-- Witness for C3: the spec's own PPM example, at the inclusive
boundary — 100.0001 against 100.0 at 1 ppm. -/
theorem claim_C3_witness :
    within_tolerance (1000001 / 10000) 100 1 ToleranceKind.ppm =
      Except.ok true :=
  ((claim_C3_within_tolerance (1000001 / 10000) 100 1).2 (by norm_num)).mpr
    (by rw [abs_le]; constructor <;> norm_num)

/-! ## Lemmas about the match scorer -/

theorem filterMap_id_cons_some {α : Type} (i : α) (tl : List (Option α)) :
    ((some i :: tl).filterMap id) = i :: tl.filterMap id := by simp

theorem filterMap_id_cons_none {α : Type} (tl : List (Option α)) :
    (((none : Option α) :: tl).filterMap id) = tl.filterMap id := by simp

theorem eq_snd_of_nodup_keys {α β : Type} {l : List (α × β)}
    (hnd : (l.map Prod.fst).Nodup) {a : α} {b₁ b₂ : β}
    (h₁ : (a, b₁) ∈ l) (h₂ : (a, b₂) ∈ l) : b₁ = b₂ := by
  induction l with
  | nil => cases h₁
  | cons x xs ih =>
    rw [List.map_cons, List.nodup_cons] at hnd
    rcases List.mem_cons.mp h₁ with h₁' | h₁'
    · rcases List.mem_cons.mp h₂ with h₂' | h₂'
      · rw [← h₁'] at h₂'
        exact (congrArg Prod.snd h₂').symm
      · exfalso
        exact hnd.1 (List.mem_map.mpr ⟨(a, b₂), h₂', by rw [← h₁']⟩)
    · rcases List.mem_cons.mp h₂ with h₂' | h₂'
      · exfalso
        exact hnd.1 (List.mem_map.mpr ⟨(a, b₁), h₁', by rw [← h₂']⟩)
      · exact ih hnd.2 h₁' h₂'

theorem survivingPeaks_keys_nodup (peaks : List Peak) (ithr : Rat) :
    ((survivingPeaks peaks ithr).map Prod.fst).Nodup := by
  have hsub : ((survivingPeaks peaks ithr).map Prod.fst).Sublist
      (peaks.enum.map Prod.fst) :=
    (List.filter_sublist _).map Prod.fst
  have hnd : (peaks.enum.map Prod.fst).Nodup := by
    rw [List.enum_map_fst]
    exact List.nodup_range _
  exact hnd.sublist hsub

theorem within_tolerance_total {x ion tol : Rat} {kind : ToleranceKind}
    (h : within_tolerance x ion tol kind = Except.ok true) (y : Rat) :
    ∃ b, within_tolerance y ion tol kind = Except.ok b := by
  cases kind with
  | absolute => exact ⟨_, rfl⟩
  | ppm =>
    by_cases hz : ion = 0
    · simp [within_tolerance, hz] at h
    · simp only [within_tolerance, if_neg hz]
      exact ⟨_, rfl⟩

theorem findFirstUnused_some {tol : Rat} {kind : ToleranceKind} {ion : Rat}
    {used : List Nat} {l : List (Nat × Peak)} {i : Nat}
    (h : findFirstUnused tol kind ion used l = Except.ok (some i)) :
    firstQualifying l used tol kind ion i := by
  induction l with
  | nil => simp [findFirstUnused] at h
  | cons ip rest ih =>
    obtain ⟨j, p⟩ := ip
    simp only [findFirstUnused] at h
    by_cases hu : j ∈ used
    · rw [if_pos hu] at h
      obtain ⟨l₁, q, l₂, hdec, hiu, hok, hprev⟩ := ih h
      refine ⟨(j, p) :: l₁, q, l₂, by rw [List.cons_append, hdec], hiu, hok, ?_⟩
      intro jq hjq hju
      rcases List.mem_cons.mp hjq with rfl | hjq'
      · exact absurd hu hju
      · exact hprev jq hjq' hju
    · rw [if_neg hu] at h
      cases hw : within_tolerance p.mass ion tol kind with
      | error e => rw [hw] at h; cases h
      | ok b =>
        cases b with
        | true =>
          rw [hw] at h
          have hij : j = i := by simpa using h
          subst hij
          exact ⟨[], p, rest, rfl, hu, hw, by intro jq hjq; cases hjq⟩
        | false =>
          rw [hw] at h
          obtain ⟨l₁, q, l₂, hdec, hiu, hok, hprev⟩ := ih h
          refine ⟨(j, p) :: l₁, q, l₂, by rw [List.cons_append, hdec], hiu, hok, ?_⟩
          intro jq hjq hju
          rcases List.mem_cons.mp hjq with rfl | hjq'
          · exact hw
          · exact hprev jq hjq' hju

theorem findFirstUnused_isSome {tol : Rat} {kind : ToleranceKind} {ion : Rat}
    {used : List Nat} {l : List (Nat × Peak)}
    (h : ∃ jq ∈ l, jq.1 ∉ used ∧ matchesIon tol kind jq ion) :
    ∃ i, findFirstUnused tol kind ion used l = Except.ok (some i) := by
  induction l with
  | nil => obtain ⟨jq, hm, -⟩ := h; cases hm
  | cons ip rest ih =>
    obtain ⟨jq, hm, hju, hjm⟩ := h
    have hjm' : within_tolerance jq.2.mass ion tol kind = Except.ok true := hjm
    simp only [findFirstUnused]
    by_cases hu : ip.1 ∈ used
    · rw [if_pos hu]
      apply ih
      rcases List.mem_cons.mp hm with rfl | hm'
      · exact absurd hu hju
      · exact ⟨jq, hm', hju, hjm⟩
    · rw [if_neg hu]
      obtain ⟨b, hb⟩ := within_tolerance_total hjm' ip.2.mass
      cases b with
      | true => rw [hb]; exact ⟨ip.1, rfl⟩
      | false =>
        rw [hb]
        apply ih
        rcases List.mem_cons.mp hm with rfl | hm'
        · cases hjm'.symm.trans hb
        · exact ⟨jq, hm', hju, hjm⟩

theorem greedyAssign_ok {surv : List (Nat × Peak)} {tol : Rat}
    {kind : ToleranceKind} :
    ∀ {ions : List Rat} {used : List Nat} {as : List (Option Nat)},
      greedyAssign surv tol kind ions used = Except.ok as →
      as.length = ions.length ∧
      (∀ i ∈ as.filterMap id, i ∉ used ∧ ∃ p, (i, p) ∈ surv) ∧
      (as.filterMap id).Nodup ∧
      (∀ k i, as[k]? = some (some i) →
        ∃ ion, ions[k]? = some ion ∧
          firstQualifying surv (used ++ (as.take k).filterMap id) tol kind ion i) := by
  intro ions
  induction ions with
  | nil =>
    intro used as h
    have has : as = [] := by simpa [greedyAssign] using h.symm
    subst has
    refine ⟨rfl, by simp, by simp, ?_⟩
    intro k i hk
    simp at hk
  | cons ion rest ih =>
    intro used as h
    simp only [greedyAssign] at h
    cases hf : findFirstUnused tol kind ion used surv with
    | error e => rw [hf] at h; dsimp only at h; exact Except.noConfusion h
    | ok oi =>
      rw [hf] at h
      cases oi with
      | some i =>
        dsimp only at h
        cases hg : greedyAssign surv tol kind rest (used ++ [i]) with
        | error e => rw [hg] at h; dsimp only at h; exact Except.noConfusion h
        | ok tl =>
          rw [hg] at h
          dsimp only at h
          have has : as = some i :: tl := by simpa using h.symm
          subst has
          obtain ⟨hlen, hmem, hnd, hfq⟩ := ih hg
          obtain ⟨l₁, p, l₂, hdec, hiu, hok, hprev⟩ := findFirstUnused_some hf
          have hips : (i, p) ∈ surv := by
            rw [hdec]; exact List.mem_append_right _ (List.mem_cons_self _ _)
          refine ⟨by simp [hlen], ?_, ?_, ?_⟩
          · intro j hj
            rw [filterMap_id_cons_some] at hj
            rcases List.mem_cons.mp hj with rfl | hj'
            · exact ⟨hiu, p, hips⟩
            · obtain ⟨hnu, hp⟩ := hmem j hj'
              exact ⟨fun hju => hnu (List.mem_append_left _ hju), hp⟩
          · have hni : i ∉ tl.filterMap id := fun hi =>
              (hmem i hi).1 (List.mem_append_right _ (List.mem_cons_self _ _))
            rw [filterMap_id_cons_some]
            exact List.nodup_cons.mpr ⟨hni, hnd⟩
          · intro k j hk
            cases k with
            | zero =>
              have hji : i = j := by simpa using hk
              subst hji
              refine ⟨ion, by simp, ?_⟩
              simpa using ⟨l₁, p, l₂, hdec, hiu, hok, hprev⟩
            | succ k' =>
              rw [List.getElem?_cons_succ] at hk
              obtain ⟨ion', hion', hq⟩ := hfq k' j hk
              refine ⟨ion', by simpa using hion', ?_⟩
              have harr : used ++ (((some i : Option Nat) :: tl).take (k' + 1)).filterMap id
                  = (used ++ [i]) ++ (tl.take k').filterMap id := by
                rw [List.take_succ_cons, filterMap_id_cons_some, List.append_assoc]
                rfl
              rw [harr]
              exact hq
      | none =>
        dsimp only at h
        cases hg : greedyAssign surv tol kind rest used with
        | error e => rw [hg] at h; dsimp only at h; exact Except.noConfusion h
        | ok tl =>
          rw [hg] at h
          dsimp only at h
          have has : as = none :: tl := by simpa using h.symm
          subst has
          obtain ⟨hlen, hmem, hnd, hfq⟩ := ih hg
          refine ⟨by simp [hlen], ?_, ?_, ?_⟩
          · intro j hj
            rw [filterMap_id_cons_none] at hj
            exact hmem j hj
          · rw [filterMap_id_cons_none]
            exact hnd
          · intro k j hk
            cases k with
            | zero => simp at hk
            | succ k' =>
              rw [List.getElem?_cons_succ] at hk
              obtain ⟨ion', hion', hq⟩ := hfq k' j hk
              refine ⟨ion', by simpa using hion', ?_⟩
              have harr : used ++ (((none : Option Nat) :: tl).take (k' + 1)).filterMap id
                  = used ++ (tl.take k').filterMap id := by
                rw [List.take_succ_cons, filterMap_id_cons_none]
              rw [harr]
              exact hq

theorem greedyAssign_complete {surv : List (Nat × Peak)} {tol : Rat}
    {kind : ToleranceKind} (hnd : (surv.map Prod.fst).Nodup) :
    ∀ (ions : List Rat) (used : List Nat),
      (∀ ion ∈ ions, ∃ jq ∈ surv, matchesIon tol kind jq ion) →
      List.Pairwise (fun a b => ∀ jq ∈ surv,
        ¬(matchesIon tol kind jq a ∧ matchesIon tol kind jq b)) ions →
      (∀ j ∈ used, ∀ q, (j, q) ∈ surv → ∀ ion ∈ ions,
        ¬ matchesIon tol kind (j, q) ion) →
      ∃ as, greedyAssign surv tol kind ions used = Except.ok as ∧
        (as.filterMap id).length = ions.length := by
  intro ions
  induction ions with
  | nil => intro used _ _ _; exact ⟨[], rfl, rfl⟩
  | cons ion rest ih =>
    intro used hmatch hpw hinv
    obtain ⟨jq, hjqs, hjqm⟩ := hmatch ion (List.mem_cons_self _ _)
    have hju : jq.1 ∉ used := by
      intro hj
      exact hinv jq.1 hj jq.2 (by simpa using hjqs) ion (List.mem_cons_self _ _)
        hjqm
    obtain ⟨i, hf⟩ := findFirstUnused_isSome ⟨jq, hjqs, hju, hjqm⟩
    obtain ⟨l₁, p, l₂, hdec, hiu, hok, -⟩ := findFirstUnused_some hf
    have hips : (i, p) ∈ surv := by
      rw [hdec]; exact List.mem_append_right _ (List.mem_cons_self _ _)
    rw [List.pairwise_cons] at hpw
    obtain ⟨hhead, hpw'⟩ := hpw
    have hinv' : ∀ j ∈ used ++ [i], ∀ q, (j, q) ∈ surv → ∀ ion' ∈ rest,
        ¬ matchesIon tol kind (j, q) ion' := by
      intro j hj q hjq ion' hion' hm
      rcases List.mem_append.mp hj with hj' | hj'
      · exact hinv j hj' q hjq ion' (List.mem_cons_of_mem _ hion') hm
      · have hji : j = i := by simpa using hj'
        have hqp : q = p := eq_snd_of_nodup_keys hnd (hji ▸ hjq) hips
        refine hhead ion' hion' (j, q) hjq ⟨?_, hm⟩
        show within_tolerance q.mass ion tol kind = Except.ok true
        rw [hqp]
        exact hok
    obtain ⟨tl, hg, hlen⟩ := ih (used ++ [i])
      (fun ion' h' => hmatch ion' (List.mem_cons_of_mem _ h')) hpw' hinv'
    refine ⟨some i :: tl, ?_, ?_⟩
    · simp only [greedyAssign, hf, hg]
    · simp [List.filterMap_cons, hlen]

/-! ## Concrete evaluation helpers for the tolerance evaluator -/

theorem wt_abs_true {x r t : Rat} (h : |x - r| ≤ t) :
    within_tolerance x r t ToleranceKind.absolute = Except.ok true := by
  simp [within_tolerance, h]

theorem wt_abs_false {x r t : Rat} (h : ¬ |x - r| ≤ t) :
    within_tolerance x r t ToleranceKind.absolute = Except.ok false := by
  simp [within_tolerance, h]

/-- Claim C5: in the match scorer, peaks with intensity below
`intensity_threshold` never count as matches (every assigned peak is a
surviving peak, i.e. has intensity at or above the threshold); the
peak/ion assignment is one-to-one (one slot per reference ion, in
reference-ion order, and no peak index repeats); and it is greedy: the
peak assigned to a reference ion is the first not-yet-used surviving peak
in spectrum order that lies within tolerance of it. -/
theorem claim_C5_scorer_assignment (peaks : List Peak) (ions : List Rat)
    (tol : Rat) (kind : ToleranceKind) (ithr : Rat) (as : List (Option Nat))
    (h : assignmentOf peaks ions tol kind ithr = Except.ok as) :
    as.length = ions.length ∧
    (as.filterMap id).Nodup ∧
    (∀ i ∈ as.filterMap id, ∃ p : Peak, (i, p) ∈ peaks.enum ∧ ithr ≤ p.intensity) ∧
    (∀ k i, as[k]? = some (some i) →
      ∃ ion, ions[k]? = some ion ∧
        firstQualifying (survivingPeaks peaks ithr) ((as.take k).filterMap id)
          tol kind ion i) := by
  obtain ⟨hlen, hmem, hnd, hfq⟩ := greedyAssign_ok h
  refine ⟨hlen, hnd, ?_, ?_⟩
  · intro i hi
    obtain ⟨-, p, hp⟩ := hmem i hi
    have hp' := hp
    unfold survivingPeaks at hp'
    have h2 := List.mem_filter.mp hp'
    exact ⟨p, h2.1, by simpa using h2.2⟩
  · intro k i hk
    obtain ⟨ion, hion, hq⟩ := hfq k i hk
    exact ⟨ion, hion, by simpa using hq⟩

/-- Witness for C5: on the two-peak spectrum `wPeaks` with intensity
threshold 1 (discarding the first peak) and the single reference ion 100,
the scorer's assignment is `[some 1]`, and the claimed properties hold of
it. -/
theorem claim_C5_witness :
    ([some 1] : List (Option Nat)).length = wIons.length ∧
    (([some 1] : List (Option Nat)).filterMap id).Nodup ∧
    (∀ i ∈ ([some 1] : List (Option Nat)).filterMap id,
      ∃ p : Peak, (i, p) ∈ wPeaks.enum ∧ (1 : Rat) ≤ p.intensity) ∧
    (∀ k i, (([some 1] : List (Option Nat)))[k]? = some (some i) →
      ∃ ion, wIons[k]? = some ion ∧
        firstQualifying (survivingPeaks wPeaks 1)
          ((([some 1] : List (Option Nat)).take k).filterMap id)
          1 ToleranceKind.absolute ion i) := by
  apply claim_C5_scorer_assignment wPeaks wIons 1 ToleranceKind.absolute 1 [some 1]
  have hwt : within_tolerance (100 : Rat) 100 1 ToleranceKind.absolute =
      Except.ok true :=
    wt_abs_true (by rw [abs_le]; constructor <;> norm_num)
  have henum : wPeaks.enum = [(0, ⟨50, 0⟩), (1, ⟨100, 5⟩)] := rfl
  have hc1 : ¬ ((1 : Rat) ≤ 0) := by norm_num
  have hc2 : (1 : Rat) ≤ 5 := by norm_num
  have hsurv : survivingPeaks wPeaks 1 = [(1, ⟨100, 5⟩)] := by
    unfold survivingPeaks
    rw [henum]
    simp [List.filter_cons, hc1, hc2]
  show greedyAssign (survivingPeaks wPeaks 1) 1 ToleranceKind.absolute wIons []
      = Except.ok [some 1]
  rw [hsurv]
  simp [greedyAssign, findFirstUnused, wIons, hwt]

/-- Counterexample for the completeness clause of C4 as stated: with one
surviving peak of mass 100 and the two reference ions `[100, 100]`, every
reference ion has a matching peak within tolerance, yet the one-to-one
greedy assignment matches only one of them: the score is `(50, 1)`, not
`(100, 2)`. -/
theorem claim_C4_counterexample :
    (∀ ion ∈ cexIons, ∃ jq ∈ survivingPeaks cexPeaks 0,
      matchesIon 1 ToleranceKind.absolute jq ion) ∧
    score cexPeaks cexIons 1 ToleranceKind.absolute 0 = Except.ok (50, 1) ∧
    ¬ score cexPeaks cexIons 1 ToleranceKind.absolute 0 =
        Except.ok (100, (cexIons.length : Nat)) := by
  have hwt : within_tolerance (100 : Rat) 100 1 ToleranceKind.absolute =
      Except.ok true :=
    wt_abs_true (by rw [abs_le]; constructor <;> norm_num)
  have hc0 : (0 : Rat) ≤ 1 := by norm_num
  have hsurv : survivingPeaks cexPeaks 0 = [(0, ⟨100, 1⟩)] := by
    unfold survivingPeaks
    rw [show cexPeaks.enum = [(0, ⟨100, 1⟩)] from rfl]
    simp [List.filter_cons, hc0]
  have ha : assignmentOf cexPeaks cexIons 1 ToleranceKind.absolute 0 =
      Except.ok [some 0, none] := by
    show greedyAssign (survivingPeaks cexPeaks 0) 1 ToleranceKind.absolute
        cexIons [] = Except.ok [some 0, none]
    rw [hsurv]
    simp [greedyAssign, findFirstUnused, cexIons, hwt]
  have hscore : score cexPeaks cexIons 1 ToleranceKind.absolute 0 =
      Except.ok (50, 1) := by
    unfold score
    rw [ha]
    dsimp only
    have hfm : (([some 0, none] : List (Option Nat)).filterMap id) = [0] := by
      simp
    rw [hfm]
    simp only [cexIons, List.length_cons, List.length_nil, List.length_singleton]
    norm_num
  refine ⟨?_, hscore, ?_⟩
  · intro ion hion
    have hion' : ion = 100 ∨ ion = 100 := by simpa [cexIons] using hion
    have h100 : ion = 100 := by rcases hion' with h | h <;> exact h
    subst h100
    refine ⟨(0, ⟨100, 1⟩), by rw [hsurv]; simp, ?_⟩
    show within_tolerance (100 : Rat) 100 1 ToleranceKind.absolute = Except.ok true
    exact hwt
  · rw [hscore]
    intro hcontra
    rw [Except.ok.injEq, Prod.mk.injEq] at hcontra
    have h50 : (50 : Rat) = 100 := hcontra.1
    norm_num at h50

/-- Claim C4 (amended): `score` returns `score_percent =
100 * matched_count / total_reference_ion_count` with the convention that
an empty reference-ion list scores `(0, 0)` against every spectrum; and
the completeness clause amended for the one-to-one greedy assignment —
when the reference-ion list is nonempty, every reference ion has a
matching surviving peak, and no surviving peak lies within tolerance of
two (occurrences of) reference ions, then every reference ion is matched
and the score is `(100, total_reference_ion_count)`. -/
theorem claim_C4_score_formula (peaks : List Peak) (ions : List Rat)
    (tol : Rat) (kind : ToleranceKind) (ithr : Rat) :
    score peaks [] tol kind ithr = Except.ok (0, 0) ∧
    (∀ pct m, score peaks ions tol kind ithr = Except.ok (pct, m) →
      m ≤ ions.length ∧
      pct = if ions.length = 0 then 0
            else 100 * (m : Rat) / (ions.length : Rat)) ∧
    (ions ≠ [] →
      (∀ ion ∈ ions, ∃ jq ∈ survivingPeaks peaks ithr,
        matchesIon tol kind jq ion) →
      List.Pairwise (fun a b => ∀ jq ∈ survivingPeaks peaks ithr,
        ¬(matchesIon tol kind jq a ∧ matchesIon tol kind jq b)) ions →
      score peaks ions tol kind ithr = Except.ok (100, ions.length)) := by
  refine ⟨rfl, ?_, ?_⟩
  · intro pct m h
    unfold score at h
    cases ha : assignmentOf peaks ions tol kind ithr with
    | error e => rw [ha] at h; dsimp only at h; exact Except.noConfusion h
    | ok as =>
      rw [ha] at h
      dsimp only at h
      obtain ⟨hlen, -, -, -⟩ := greedyAssign_ok ha
      have hh := h
      rw [Except.ok.injEq, Prod.mk.injEq] at hh
      obtain ⟨hpct, hm⟩ := hh
      constructor
      · rw [← hm, ← hlen]
        exact List.length_filterMap_le id as
      · rw [← hpct, ← hm]
  · intro hne hmatch hpw
    obtain ⟨as, hg, hlenm⟩ :=
      greedyAssign_complete (survivingPeaks_keys_nodup peaks ithr) ions []
        hmatch hpw (by intro j hj; cases hj)
    have ha : assignmentOf peaks ions tol kind ithr = Except.ok as := hg
    unfold score
    rw [ha]
    dsimp only
    have h0 : ions.length ≠ 0 := by simpa using hne
    rw [hlenm, if_neg h0]
    have hcast : (ions.length : Rat) ≠ 0 := Nat.cast_ne_zero.mpr h0
    rw [mul_div_assoc, div_self hcast, mul_one]

/-- Witness for C4: on the two-peak spectrum `wPeaks2` and its two
matching reference ions `wIons2`, the completeness hypotheses hold and
the score is a full `(100, 2)`. -/
theorem claim_C4_witness :
    score wPeaks2 wIons2 1 ToleranceKind.absolute 0 = Except.ok (100, 2) := by
  have hwt1 : within_tolerance (100 : Rat) 100 1 ToleranceKind.absolute =
      Except.ok true :=
    wt_abs_true (by rw [abs_le]; constructor <;> norm_num)
  have hwt2 : within_tolerance (160 : Rat) 160 1 ToleranceKind.absolute =
      Except.ok true :=
    wt_abs_true (by rw [abs_le]; constructor <;> norm_num)
  have hwf1 : within_tolerance (100 : Rat) 160 1 ToleranceKind.absolute =
      Except.ok false :=
    wt_abs_false (by
      intro hc
      rw [abs_le] at hc
      have h1 := hc.1
      norm_num at h1)
  have hwf2 : within_tolerance (160 : Rat) 100 1 ToleranceKind.absolute =
      Except.ok false :=
    wt_abs_false (by
      intro hc
      rw [abs_le] at hc
      have h1 := hc.2
      norm_num at h1)
  have hc0 : (0 : Rat) ≤ 5 := by norm_num
  have hsurv : survivingPeaks wPeaks2 0 = [(0, ⟨100, 5⟩), (1, ⟨160, 5⟩)] := by
    unfold survivingPeaks
    rw [show wPeaks2.enum = [(0, ⟨100, 5⟩), (1, ⟨160, 5⟩)] from rfl]
    simp [List.filter_cons, hc0]
  have happ := (claim_C4_score_formula wPeaks2 wIons2 1 ToleranceKind.absolute 0).2.2
    (by simp [wIons2])
    (by
      intro ion hion
      have hion' : ion = 100 ∨ ion = 160 := by simpa [wIons2] using hion
      rcases hion' with rfl | rfl
      · refine ⟨(0, ⟨100, 5⟩), by rw [hsurv]; simp, ?_⟩
        show within_tolerance (100 : Rat) 100 1 ToleranceKind.absolute =
          Except.ok true
        exact hwt1
      · refine ⟨(1, ⟨160, 5⟩), by rw [hsurv]; simp, ?_⟩
        show within_tolerance (160 : Rat) 160 1 ToleranceKind.absolute =
          Except.ok true
        exact hwt2)
    (by
      show List.Pairwise _ ([100, 160] : List Rat)
      refine List.Pairwise.cons ?_ (List.pairwise_singleton _ _)
      intro b hb jq hjq hcon
      have hb' : b = 160 := by simpa using hb
      subst hb'
      rw [hsurv] at hjq
      rcases List.mem_cons.mp hjq with rfl | hjq'
      · have h2 : within_tolerance (100 : Rat) 160 1 ToleranceKind.absolute =
            Except.ok true := hcon.2
        cases hwf1.symm.trans h2
      · have hjq'' : jq = (1, ⟨160, 5⟩) := by simpa using hjq'
        subst hjq''
        have h1 : within_tolerance (160 : Rat) 100 1 ToleranceKind.absolute =
            Except.ok true := hcon.1
        cases hwf2.symm.trans h1)
  exact happ

/-! ## Claims about candidate generation and the engine -/

/-- Claim C6: in candidate generation, a mass-compatible entry whose
`score_percent` is exactly the threshold is accepted (inclusive
boundary, contributing no filtered count), and one whose `score_percent`
is strictly below the threshold is dropped and increments the filtered
count by exactly one. -/
theorem claim_C6_threshold_inclusive (s : Spectrum) (par : AnalysisParameters)
    (e : ModificationEntry) (rest : List ModificationEntry) (pct : Rat) (m : Nat)
    (hmass : within_tolerance s.precursor_mass e.reference_mass
        par.ms_tolerance par.ms_tolerance_type = Except.ok true)
    (hscore : score s.peaks e.reference_product_ions
        par.ms_ms_tolerance par.ms_ms_tolerance_type 0 = Except.ok (pct, m)) :
    (pct = par.ms_ms_score_threshold →
      generateCandidates s par (e :: rest) =
        (mkCandidate s e pct m :: (generateCandidates s par rest).1,
         (generateCandidates s par rest).2)) ∧
    (pct < par.ms_ms_score_threshold →
      generateCandidates s par (e :: rest) =
        ((generateCandidates s par rest).1,
         (generateCandidates s par rest).2 + 1)) := by
  have hpe_acc : par.ms_ms_score_threshold ≤ pct →
      processEntry s e par = Except.ok (some (mkCandidate s e pct m), 0) := by
    intro hle
    unfold processEntry
    rw [hmass]
    dsimp only
    rw [hscore]
    dsimp only
    rw [if_pos hle]
  have hpe_rej : ¬ par.ms_ms_score_threshold ≤ pct →
      processEntry s e par = Except.ok (none, 1) := by
    intro hlt
    unfold processEntry
    rw [hmass]
    dsimp only
    rw [hscore]
    dsimp only
    rw [if_neg hlt]
  constructor
  · intro heq
    have h := hpe_acc (le_of_eq heq.symm)
    simp [generateCandidates, h]
  · intro hlt
    have h := hpe_rej (not_le.mpr hlt)
    simp [generateCandidates, h]

/-- Witness for C6: with threshold exactly 100, the fully-matched entry
`e0` (score 100, at the boundary) is accepted with no filtered count,
and the half-matched entry `e1` (score 50) is dropped with one filtered
count. -/
theorem claim_C6_witness :
    generateCandidates s0 p0 [e0] = ([mkCandidate s0 e0 100 2], 0) ∧
    generateCandidates s0 p0 [e1] = ([], 1) := by
  have hw1 : within_tolerance (150 : Rat) 150 1 ToleranceKind.absolute =
      Except.ok true := wt_abs_true (by rw [abs_le]; constructor <;> norm_num)
  have hw2 : within_tolerance (160 : Rat) 160 1 ToleranceKind.absolute =
      Except.ok true := wt_abs_true (by rw [abs_le]; constructor <;> norm_num)
  have hw999 : within_tolerance (160 : Rat) 999 1 ToleranceKind.absolute =
      Except.ok false := wt_abs_false (by
        intro hc
        rw [abs_le] at hc
        have h1 := hc.1
        norm_num at h1)
  have hw300 : within_tolerance (300 : Rat) 300 1 ToleranceKind.absolute =
      Except.ok true := wt_abs_true (by rw [abs_le]; constructor <;> norm_num)
  have hc0 : (0 : Rat) ≤ 10 := by norm_num
  have hsurv : survivingPeaks s0.peaks 0 = [(0, ⟨150, 10⟩), (1, ⟨160, 10⟩)] := by
    unfold survivingPeaks
    rw [show s0.peaks.enum = [(0, ⟨150, 10⟩), (1, ⟨160, 10⟩)] from rfl]
    simp [List.filter_cons, hc0]
  have hscore0 : score s0.peaks e0.reference_product_ions 1
      ToleranceKind.absolute 0 = Except.ok (100, 2) := by
    have ha : assignmentOf s0.peaks [150, 160] 1 ToleranceKind.absolute 0 =
        Except.ok [some 0, some 1] := by
      show greedyAssign (survivingPeaks s0.peaks 0) 1 ToleranceKind.absolute
          [150, 160] [] = Except.ok [some 0, some 1]
      rw [hsurv]
      simp [greedyAssign, findFirstUnused, hw1, hw2]
    unfold score
    rw [show e0.reference_product_ions = [150, 160] from rfl, ha]
    dsimp only
    rw [show (([some 0, some 1] : List (Option Nat)).filterMap id) = [0, 1]
      from by simp]
    norm_num
  have hscore1 : score s0.peaks e1.reference_product_ions 1
      ToleranceKind.absolute 0 = Except.ok (50, 1) := by
    have ha : assignmentOf s0.peaks [150, 999] 1 ToleranceKind.absolute 0 =
        Except.ok [some 0, none] := by
      show greedyAssign (survivingPeaks s0.peaks 0) 1 ToleranceKind.absolute
          [150, 999] [] = Except.ok [some 0, none]
      rw [hsurv]
      simp [greedyAssign, findFirstUnused, hw1, hw999]
    unfold score
    rw [show e1.reference_product_ions = [150, 999] from rfl, ha]
    dsimp only
    rw [show (([some 0, none] : List (Option Nat)).filterMap id) = [0]
      from by simp]
    norm_num
  constructor
  · exact (claim_C6_threshold_inclusive s0 p0 e0 [] 100 2 hw300 hscore0).1 rfl
  · exact (claim_C6_threshold_inclusive s0 p0 e1 [] 50 1 hw300 hscore1).2
      (by norm_num [p0])

/-- Claim C9: a PPM tolerance test against reference mass 0 fails with
`InvalidTolerance`; an entry whose evaluation so fails (in particular a
zero-mass entry under a PPM precursor tolerance) is skipped and candidate
generation continues with exactly the remaining entries. -/
theorem claim_C9_invalid_tolerance_skipped :
    (∀ observed magnitude : Rat,
      within_tolerance observed 0 magnitude ToleranceKind.ppm =
        Except.error EngineError.InvalidTolerance) ∧
    (∀ (s : Spectrum) (e : ModificationEntry) (par : AnalysisParameters),
      par.ms_tolerance_type = ToleranceKind.ppm → e.reference_mass = 0 →
      processEntry s e par = Except.error EngineError.InvalidTolerance) ∧
    (∀ (s : Spectrum) (par : AnalysisParameters) (db : List ModificationEntry),
      generateCandidates s par db =
        generateCandidates s par
          (db.filter (fun e =>
            match processEntry s e par with
            | Except.error _ => false
            | Except.ok _ => true))) := by
  refine ⟨?_, ?_, ?_⟩
  · intro o m
    simp [within_tolerance]
  · intro s e par hkind hmass
    unfold processEntry
    rw [hkind, hmass]
    rw [show within_tolerance s.precursor_mass 0 par.ms_tolerance
        ToleranceKind.ppm = Except.error EngineError.InvalidTolerance
      from by simp [within_tolerance]]
  · intro s par db
    induction db with
    | nil => rfl
    | cons e rest ih =>
      cases hp : processEntry s e par with
      | error err =>
        simp only [generateCandidates, hp, List.filter_cons]
        exact ih
      | ok r =>
        obtain ⟨oc, k⟩ := r
        cases oc with
        | some c =>
          simp only [generateCandidates, hp, List.filter_cons]
          rw [ih]
        | none =>
          simp only [generateCandidates, hp, List.filter_cons]
          rw [ih]

/-- Witness for C9: the per-entry failure at a concrete zero-mass entry
under a PPM precursor tolerance. -/
theorem claim_C9_witness :
    processEntry s0 eBad pPpm = Except.error EngineError.InvalidTolerance :=
  claim_C9_invalid_tolerance_skipped.2.1 s0 eBad pPpm rfl rfl

/-- Claim C8: `find_modifications` reports `InvalidParameters` whenever a
tolerance, the score threshold or the exclusion time is negative, before
any matching work (regardless of spectra and database); with legal
parameters it fails with `EmptyDatabase` on an empty database; and with
legal parameters and a nonempty database an empty spectrum collection
yields the empty identification list with `filtered_count = 0`. -/
theorem claim_C8_engine_errors (spectra : List Spectrum)
    (db : List ModificationEntry) (par : AnalysisParameters) :
    ((par.ms_tolerance < 0 ∨ par.ms_ms_tolerance < 0 ∨
      par.ms_ms_score_threshold < 0 ∨ par.exclusion_time_seconds < 0) →
      find_modifications spectra db par =
        Except.error EngineError.InvalidParameters) ∧
    (0 ≤ par.ms_tolerance → 0 ≤ par.ms_ms_tolerance →
     0 ≤ par.ms_ms_score_threshold → 0 ≤ par.exclusion_time_seconds →
      (db = [] → find_modifications spectra db par =
        Except.error EngineError.EmptyDatabase) ∧
      (db ≠ [] → find_modifications [] db par = Except.ok ([], 0))) := by
  constructor
  · intro h
    have htrue : paramsInvalid par = true := by
      rcases h with h | h | h | h <;> simp [paramsInvalid, h]
    simp [find_modifications, htrue]
  · intro h1 h2 h3 h4
    have hfalse : paramsInvalid par = false := by
      simp [paramsInvalid, not_lt.mpr h1, not_lt.mpr h2, not_lt.mpr h3,
        not_lt.mpr h4]
    constructor
    · intro hdb
      subst hdb
      simp [find_modifications, hfalse]
    · intro hne
      have hor : db.isEmpty = false := by
        cases db with
        | nil => exact absurd rfl hne
        | cons a l => rfl
      simp [find_modifications, hfalse, hor, dedup]

/-- Witness for C8: the three scenarios at concrete inputs — a negative
`ms_tolerance` is fatal with `InvalidParameters`, an empty database is
fatal with `EmptyDatabase`, and an empty spectrum collection returns the
empty result with zero filtered count. -/
theorem claim_C8_witness :
    find_modifications [s0] [e0] pBad =
      Except.error EngineError.InvalidParameters ∧
    find_modifications [s0] [] p0 = Except.error EngineError.EmptyDatabase ∧
    find_modifications [] [e0] p0 = Except.ok ([], 0) := by
  refine ⟨?_, ?_, ?_⟩
  · exact (claim_C8_engine_errors [s0] [e0] pBad).1 (Or.inl (by norm_num [pBad]))
  · exact ((claim_C8_engine_errors [s0] [] p0).2 (by norm_num [p0]) (by norm_num [p0])
      (by norm_num [p0]) (by norm_num [p0])).1 rfl
  · exact ((claim_C8_engine_errors [] [e0] p0).2 (by norm_num [p0]) (by norm_num [p0])
      (by norm_num [p0]) (by norm_num [p0])).2 (by simp)

/-! ## Lemmas about the deduplicator -/

theorem pickBetter_cases (b c : Candidate) :
    pickBetter b c = c ∧ b.score_percent < c.score_percent ∨
    pickBetter b c = b ∧ ¬ b.score_percent < c.score_percent := by
  unfold pickBetter
  by_cases h : b.score_percent < c.score_percent
  · exact Or.inl ⟨if_pos h, h⟩
  · exact Or.inr ⟨if_neg h, h⟩

theorem foldl_pickBetter_mem (l : List Candidate) (b : Candidate) :
    l.foldl pickBetter b = b ∨ l.foldl pickBetter b ∈ l := by
  induction l generalizing b with
  | nil => exact Or.inl rfl
  | cons d rest ih =>
    rw [List.foldl_cons]
    rcases ih (pickBetter b d) with h | h
    · rw [h]
      rcases pickBetter_cases b d with ⟨he, -⟩ | ⟨he, -⟩
      · exact Or.inr (by rw [he]; exact List.mem_cons_self _ _)
      · exact Or.inl he
    · exact Or.inr (List.mem_cons_of_mem _ h)

theorem foldl_pickBetter_le (l : List Candidate) (b : Candidate) :
    b.score_percent ≤ (l.foldl pickBetter b).score_percent ∧
    ∀ d ∈ l, d.score_percent ≤ (l.foldl pickBetter b).score_percent := by
  induction l generalizing b with
  | nil => exact ⟨le_refl _, by simp⟩
  | cons d rest ih =>
    rw [List.foldl_cons]
    obtain ⟨h1, h2⟩ := ih (pickBetter b d)
    have hbd : b.score_percent ≤ (pickBetter b d).score_percent ∧
        d.score_percent ≤ (pickBetter b d).score_percent := by
      rcases pickBetter_cases b d with ⟨he, hlt⟩ | ⟨he, hge⟩
      · rw [he]; exact ⟨le_of_lt hlt, le_refl _⟩
      · rw [he]; exact ⟨le_refl _, not_lt.mp hge⟩
    refine ⟨le_trans hbd.1 h1, ?_⟩
    intro x hx
    rcases List.mem_cons.mp hx with rfl | hx'
    · exact le_trans hbd.2 h1
    · exact h2 x hx'

theorem foldl_pickBetter_first (l : List Candidate) (b : Candidate) :
    l.foldl pickBetter b = b ∨
    ∃ x ∈ l, l.foldl pickBetter b = x ∧
      b.score_percent < x.score_percent := by
  induction l generalizing b with
  | nil => exact Or.inl rfl
  | cons d rest ih =>
    rw [List.foldl_cons]
    rcases pickBetter_cases b d with ⟨he, hlt⟩ | ⟨he, -⟩
    · rw [he]
      rcases ih d with h1 | ⟨x, hx, hxe, hxlt⟩
      · exact Or.inr ⟨d, List.mem_cons_self _ _, h1, hlt⟩
      · exact Or.inr ⟨x, List.mem_cons_of_mem _ hx, hxe, lt_trans hlt hxlt⟩
    · rw [he]
      rcases ih b with h1 | ⟨x, hx, hxe, hxlt⟩
      · exact Or.inl h1
      · exact Or.inr ⟨x, List.mem_cons_of_mem _ hx, hxe, hxlt⟩

theorem foldl_pickBetter_tie (l : List Candidate) (b : Candidate)
    (hpw : List.Pairwise (fun x y =>
      x.retention_time_seconds ≤ y.retention_time_seconds) (b :: l)) :
    ∀ d ∈ b :: l, d.score_percent = (l.foldl pickBetter b).score_percent →
      (l.foldl pickBetter b).retention_time_seconds ≤
        d.retention_time_seconds := by
  induction l generalizing b with
  | nil =>
    intro d hd hds
    have hdb : d = b := by simpa using hd
    subst hdb
    exact le_refl _
  | cons d₀ rest ih =>
    rw [List.pairwise_cons] at hpw
    obtain ⟨hb, hpw'⟩ := hpw
    have hd₀r : ∀ x ∈ rest, d₀.retention_time_seconds ≤
        x.retention_time_seconds := (List.pairwise_cons.mp hpw').1
    have hpwb' : List.Pairwise (fun x y =>
        x.retention_time_seconds ≤ y.retention_time_seconds)
        (pickBetter b d₀ :: rest) := by
      rw [List.pairwise_cons]
      refine ⟨?_, (List.pairwise_cons.mp hpw').2⟩
      intro x hx
      rcases pickBetter_cases b d₀ with ⟨he, -⟩ | ⟨he, -⟩
      · rw [he]; exact hd₀r x hx
      · rw [he]; exact hb x (List.mem_cons_of_mem _ hx)
    have IH := ih (pickBetter b d₀) hpwb'
    intro d hd hds
    rw [List.foldl_cons] at hds ⊢
    rcases List.mem_cons.mp hd with rfl | hd'
    · -- d = b, the seed
      rcases pickBetter_cases d d₀ with ⟨he, hlt⟩ | ⟨he, -⟩
      · -- b was discarded for the strictly better d₀
        exfalso
        have hle := (foldl_pickBetter_le rest (pickBetter d d₀)).1
        rw [he] at hle
        rw [he] at hds
        exact absurd hds (ne_of_lt (lt_of_lt_of_le hlt hle))
      · -- b survived the first comparison
        have : d ∈ pickBetter d d₀ :: rest := by
          rw [he]; exact List.mem_cons_self _ _
        exact IH d this hds
    · rcases List.mem_cons.mp hd' with rfl | hd''
      · -- d = d₀, the first comparison's newcomer
        rcases pickBetter_cases b d with ⟨he, -⟩ | ⟨he, hge⟩
        · have : d ∈ pickBetter b d :: rest := by
            rw [he]; exact List.mem_cons_self _ _
          exact IH d this hds
        · -- d₀ was discarded: the incumbent b survived with b.score ≥ d₀.score
          rcases foldl_pickBetter_first rest (pickBetter b d) with hbb | hxx
          · rw [hbb, he]
            exact hb d (List.mem_cons_self _ _)
          · obtain ⟨x, -, hxe, hxlt⟩ := hxx
            exfalso
            rw [he] at hxe hxlt
            have hlt2 : d.score_percent <
                (rest.foldl pickBetter b).score_percent := by
              calc d.score_percent ≤ b.score_percent := not_lt.mp hge
                _ < x.score_percent := hxlt
                _ = (rest.foldl pickBetter b).score_percent := by rw [hxe]
            rw [he] at hds
            exact absurd hds (ne_of_lt hlt2)
      · exact IH d (List.mem_cons_of_mem _ hd'') hds

theorem splitChainsFrom_shape (excl : Rat) :
    ∀ (rest : List Candidate) (c : Candidate),
      ∃ t chs, splitChainsFrom excl c rest = (c :: t) :: chs := by
  intro rest
  induction rest with
  | nil => exact fun c => ⟨[], [], rfl⟩
  | cons d rest ih =>
    intro c
    obtain ⟨t', chs', hd⟩ := ih d
    by_cases hw : d.retention_time_seconds - c.retention_time_seconds ≤ excl
    · refine ⟨d :: t', chs', ?_⟩
      simp only [splitChainsFrom, if_pos hw, hd]
    · refine ⟨[], splitChainsFrom excl d rest, ?_⟩
      simp only [splitChainsFrom, if_neg hw]

theorem splitChainsFrom_mem (excl : Rat) :
    ∀ (rest : List Candidate) (c : Candidate) (ch : List Candidate),
      ch ∈ splitChainsFrom excl c rest →
      ch ≠ [] ∧ ch.Sublist (c :: rest) := by
  intro rest
  induction rest with
  | nil =>
    intro c ch hm
    have : ch = [c] := by simpa [splitChainsFrom] using hm
    subst this
    exact ⟨by simp, List.Sublist.refl _⟩
  | cons d rest ih =>
    intro c ch hm
    by_cases hw : d.retention_time_seconds - c.retention_time_seconds ≤ excl
    · obtain ⟨t', chs', hd⟩ := splitChainsFrom_shape excl rest d
      rw [show splitChainsFrom excl c (d :: rest) = (c :: d :: t') :: chs'
        from by simp only [splitChainsFrom, if_pos hw, hd]] at hm
      rcases List.mem_cons.mp hm with rfl | hm'
      · have hsub : (d :: t').Sublist (d :: rest) :=
          (ih d (d :: t') (by rw [hd]; exact List.mem_cons_self _ _)).2
        exact ⟨by simp, hsub.cons₂ c⟩
      · have h2 := ih d ch (by rw [hd]; exact List.mem_cons_of_mem _ hm')
        exact ⟨h2.1, h2.2.cons c⟩
    · rw [show splitChainsFrom excl c (d :: rest) =
          [c] :: splitChainsFrom excl d rest
        from by simp only [splitChainsFrom, if_neg hw]] at hm
      rcases List.mem_cons.mp hm with rfl | hm'
      · exact ⟨by simp, (List.nil_sublist _).cons₂ c⟩
      · have h2 := ih d ch hm'
        exact ⟨h2.1, h2.2.cons c⟩

theorem sweepName_eq_chains (excl : Rat) :
    ∀ (rest : List Candidate) (b c : Candidate) (t : List Candidate)
      (chs : List (List Candidate)),
      splitChainsFrom excl c rest = (c :: t) :: chs →
      sweepName excl b c.retention_time_seconds rest =
        (t.foldl pickBetter b) :: (chs.map bestOfChain).flatten := by
  intro rest
  induction rest with
  | nil =>
    intro b c t chs h
    have h' : ([c] : List Candidate) :: ([] : List (List Candidate))
        = (c :: t) :: chs := by simpa [splitChainsFrom] using h
    rw [List.cons.injEq, List.cons.injEq] at h'
    obtain ⟨⟨-, ht⟩, hchs⟩ := h'
    subst ht
    subst hchs
    rfl
  | cons d rest ih =>
    intro b c t chs h
    obtain ⟨t', chs', hd⟩ := splitChainsFrom_shape excl rest d
    by_cases hw : d.retention_time_seconds - c.retention_time_seconds ≤ excl
    · rw [show splitChainsFrom excl c (d :: rest) = (c :: d :: t') :: chs'
        from by simp only [splitChainsFrom, if_pos hw, hd]] at h
      rw [List.cons.injEq, List.cons.injEq] at h
      obtain ⟨⟨-, ht⟩, hchs⟩ := h
      subst ht
      subst hchs
      show sweepName excl b c.retention_time_seconds (d :: rest) = _
      rw [show sweepName excl b c.retention_time_seconds (d :: rest) =
          sweepName excl (pickBetter b d) d.retention_time_seconds rest
        from by simp only [sweepName, if_pos hw]]
      rw [ih (pickBetter b d) d t' chs' hd]
      rw [List.foldl_cons]
    · rw [show splitChainsFrom excl c (d :: rest) =
          [c] :: splitChainsFrom excl d rest
        from by simp only [splitChainsFrom, if_neg hw]] at h
      rw [List.cons.injEq, List.cons.injEq] at h
      obtain ⟨⟨-, ht⟩, hchs⟩ := h
      subst ht
      subst hchs
      rw [show sweepName excl b c.retention_time_seconds (d :: rest) =
          b :: sweepName excl d d.retention_time_seconds rest
        from by simp only [sweepName, if_neg hw]]
      rw [ih d d t' chs' hd, hd]
      simp [bestOfChain]

theorem dedupName_eq_chains (excl : Rat) (g : List Candidate) :
    dedupName excl g = ((splitChains excl g).map bestOfChain).flatten := by
  cases g with
  | nil => rfl
  | cons c rest =>
    obtain ⟨t, chs, hshape⟩ := splitChainsFrom_shape excl rest c
    show sweepName excl c c.retention_time_seconds rest = _
    rw [sweepName_eq_chains excl rest c c t chs hshape]
    rw [show splitChains excl (c :: rest) = splitChainsFrom excl c rest from rfl,
      hshape]
    simp [bestOfChain]

theorem dedupName_subset (excl : Rat) (g : List Candidate) :
    ∀ x ∈ dedupName excl g, x ∈ g := by
  intro x hx
  rw [dedupName_eq_chains, List.mem_flatten] at hx
  obtain ⟨l, hl, hxl⟩ := hx
  rw [List.mem_map] at hl
  obtain ⟨ch, hch, rfl⟩ := hl
  cases g with
  | nil => cases hch
  | cons c rest =>
    obtain ⟨hne, hsub⟩ := splitChainsFrom_mem excl rest c ch hch
    cases ch with
    | nil => exact absurd rfl hne
    | cons h t =>
      have hx' : x = t.foldl pickBetter h := by simpa [bestOfChain] using hxl
      subst hx'
      have hmem : t.foldl pickBetter h ∈ h :: t := by
        rcases foldl_pickBetter_mem t h with he | hm2
        · rw [he]; exact List.mem_cons_self _ _
        · exact List.mem_cons_of_mem _ hm2
      exact hsub.subset hmem

theorem flatten_filter_name (excl : Rat) (cs : List Candidate) (name : String) :
    ∀ (ns : List String), ns.Nodup →
      ((ns.map (fun n => dedupName excl
          (cs.filter (fun c => c.modification = n)))).flatten).filter
        (fun c => c.modification = name) =
      (if name ∈ ns then
        dedupName excl (cs.filter (fun c => c.modification = name))
      else []) := by
  intro ns
  induction ns with
  | nil => intro _; simp
  | cons n ns' ih =>
    intro hnd
    rw [List.nodup_cons] at hnd
    obtain ⟨hn, hnd'⟩ := hnd
    rw [List.map_cons, List.flatten_cons, List.filter_append, ih hnd']
    by_cases hnn : n = name
    · subst hnn
      have hself : (dedupName excl
          (cs.filter (fun c => c.modification = n))).filter
          (fun c => c.modification = n) =
          dedupName excl (cs.filter (fun c => c.modification = n)) := by
        rw [List.filter_eq_self]
        intro a ha
        have := dedupName_subset excl _ a ha
        have h2 := (List.mem_filter.mp this).2
        exact h2
      rw [hself, if_neg hn, if_pos (List.mem_cons_self _ _)]
      simp
    · have hnil : (dedupName excl
          (cs.filter (fun c => c.modification = n))).filter
          (fun c => c.modification = name) = [] := by
        rw [List.filter_eq_nil_iff]
        intro a ha
        have := dedupName_subset excl _ a ha
        have h2 := (List.mem_filter.mp this).2
        simp only [decide_eq_true_eq] at h2
        simp [h2, hnn]
      rw [hnil]
      by_cases hmem : name ∈ ns'
      · rw [if_pos hmem, if_pos (List.mem_cons_of_mem _ hmem)]
        simp
      · rw [if_neg hmem, if_neg (by
          intro hc
          rcases List.mem_cons.mp hc with hc' | hc'
          · exact hnn hc'.symm
          · exact hmem hc')]
        simp

/-- Claim C7: per modification name, the deduplicator retains exactly one
candidate per run (maximal chain of same-name candidates each within
`exclusion_time_seconds` of its immediate predecessor), namely the
highest-scoring one, with the lower retention time retained on equal
scores; same-name candidates separated by more than the window fall in
different runs and are all retained as independent detections. -/
theorem claim_C7_dedup_per_name (excl : Rat) (cs : List Candidate)
    (name : String)
    (hsorted : List.Pairwise (fun x y =>
      x.retention_time_seconds ≤ y.retention_time_seconds) cs) :
    (dedup excl cs).filter (fun c => c.modification = name) =
      ((splitChains excl
          (cs.filter (fun c => c.modification = name))).map bestOfChain).flatten ∧
    ∀ ch ∈ splitChains excl (cs.filter (fun c => c.modification = name)),
      ∃ b, bestOfChain ch = [b] ∧ b ∈ ch ∧
        (∀ d ∈ ch, d.score_percent ≤ b.score_percent) ∧
        (∀ d ∈ ch, d.score_percent = b.score_percent →
          b.retention_time_seconds ≤ d.retention_time_seconds) := by
  constructor
  · unfold dedup
    rw [flatten_filter_name excl cs name _ (List.nodup_dedup _)]
    by_cases hmem : name ∈ (cs.map (fun c => c.modification)).dedup
    · rw [if_pos hmem, dedupName_eq_chains]
    · rw [if_neg hmem]
      have hgroup : cs.filter (fun c => c.modification = name) = [] := by
        rw [List.filter_eq_nil_iff]
        intro a ha hmod
        apply hmem
        rw [List.mem_dedup]
        simp only [decide_eq_true_eq] at hmod
        exact List.mem_map.mpr ⟨a, ha, hmod⟩
      rw [hgroup]
      rfl
  · intro ch hch
    have hgs : List.Pairwise (fun x y =>
        x.retention_time_seconds ≤ y.retention_time_seconds)
        (cs.filter (fun c => c.modification = name)) :=
      hsorted.filter _
    cases hg : cs.filter (fun c => c.modification = name) with
    | nil =>
      rw [hg] at hch
      cases hch
    | cons c rest =>
      rw [hg] at hch hgs
      obtain ⟨hne, hsub⟩ := splitChainsFrom_mem excl rest c ch hch
      cases ch with
      | nil => exact absurd rfl hne
      | cons h t =>
        refine ⟨t.foldl pickBetter h, rfl, ?_, ?_, ?_⟩
        · rcases foldl_pickBetter_mem t h with he | hm2
          · rw [he]; exact List.mem_cons_self _ _
          · exact List.mem_cons_of_mem _ hm2
        · intro d hd
          obtain ⟨h1, h2⟩ := foldl_pickBetter_le t h
          rcases List.mem_cons.mp hd with rfl | hd'
          · exact h1
          · exact h2 d hd'
        · intro d hd hds
          have hpwch : List.Pairwise (fun x y =>
              x.retention_time_seconds ≤ y.retention_time_seconds) (h :: t) :=
            hgs.sublist hsub
          exact foldl_pickBetter_tie t h hpwch d hd hds

/-- Witness for C7: the theorem applied to the spec's §8 scenario — the
two "X" candidates at 10 s and 40 s with a 60 s exclusion window. -/
theorem claim_C7_witness :
    (dedup 60 cs7).filter (fun c => c.modification = "X") =
      ((splitChains 60 (cs7.filter (fun c => c.modification = "X"))).map
        bestOfChain).flatten :=
  (claim_C7_dedup_per_name 60 cs7 "X" (by
    rw [show cs7 = [c1, c2] from rfl]
    refine List.Pairwise.cons ?_ (List.pairwise_singleton _ _)
    intro y hy
    have hy' : y = c2 := by simpa using hy
    subst hy'
    show (10 : Rat) ≤ 40
    norm_num)).1

end Nucleosid
